import Mathlib

/-!
Shallow embedding of the asm_interpreter repository (Rust) in Lean 4.

Each definition mirrors one item of the Rust source (file and symbol named
in its doc comment).  Machine integers are modelled as `Int`/`Nat`; the
`usize` casts and `usize` arithmetic that wrap in the compiled program are
made explicit through `wrap64` (reduction modulo `2 ^ 64`, two's-complement
release semantics).  Fallible Rust functions returning `Result` become
`Except`; operations that can additionally panic (out-of-bounds slice
indexing, a failing `assert_eq!`) return a dedicated result type with an
explicit `panic` outcome.
-/

namespace Asm

/-- Mirrors `Register` of src/register.rs: the closed register set. -/
inductive Register
  | Rax
  | Rbx
  | Rcx
deriving DecidableEq

/-- Mirrors `Destination` of src/address.rs (the variant used by
`Address::Reference`; the separate src/destination.rs module is not
declared in main.rs and is dead code). -/
inductive Destination
  | Register (r : Register)
  | StackPointer (s : Nat)
deriving DecidableEq

/-- Mirrors `Address` of src/address.rs. -/
inductive Address
  | Register (r : Register)
  | StackPointer (i : Nat)
  | Reference (d : Destination)
deriving DecidableEq

/-- Abbreviation for the built-in string type, usable in signatures where a
constructor named `String` is in scope. -/
abbrev Str : Type := String

/-- Mirrors `Type` of src/assignment.rs (named `Ty` because `Type` is a
Lean sort).  `Integer` holds an `isize`, modelled as a mathematical `Int`;
the repository leaves the integer overflow policy unspecified. -/
inductive Ty
  | String (s : String)
  | Integer (z : Int)
  | Address (a : Address)
  | Untyped
deriving DecidableEq

/-- Mirrors `Assignment` of src/assignment.rs. -/
inductive Assignment
  | Value (v : Ty)
  | Address (a : Address)
deriving DecidableEq

/-- Mirrors `impl From<Destination> for Assignment` of src/assignment.rs. -/
def Assignment.fromDestination : Destination → Assignment
  | .Register register => .Address (.Register register)
  | .StackPointer s => .Address (.StackPointer s)

/-- Mirrors `TryOperateTypes` of src/address.rs (named `TryAddError` at its
use site in src/assignment.rs). -/
inductive TryOperateTypes
  | IncompatibleTypes (a b : String)
deriving DecidableEq

/-- Mirrors `OperationError` of src/assignment.rs. -/
inductive OperationError
  | Subtraction (t1 t2 : Ty)
  | TryAdd (e : TryOperateTypes)
  | WrongType (expected actual : String)
deriving DecidableEq

/-- Mirrors `MemoryError` of src/memory.rs. -/
inductive MemoryError
  | Write (a : Address)
  | Read (a : Assignment)
  | SegmentationFault (s : String)
  | OperationError (o : OperationError)
deriving DecidableEq

/-- Display form of a register (the `Display` impl of src/register.rs). -/
def Register.display : Register → String
  | .Rax => "rax"
  | .Rbx => "rbx"
  | .Rcx => "rcx"

/-- Display form of a `Destination` (the `Display` impl of src/address.rs). -/
def Destination.display : Destination → String
  | .Register r => r.display
  | .StackPointer s => "0x" ++ toString s

/-- Display form of an `Address` (the `Display` impl of src/address.rs). -/
def Address.display : Address → String
  | .Register register => register.display
  | .StackPointer stack_pointer => "0x" ++ toString stack_pointer
  | .Reference destination => destination.display

/-- Mirrors `Type::to_string_raw` of src/assignment.rs: the raw textual
form used by string concatenation and by the printf substitution. -/
def Ty.toStringRaw : Ty → Str
  | .String a => a
  | .Integer a => toString a
  | .Address a => a.display
  | .Untyped => ""

/-- Display form of a `Type` (the `Display` impl of src/assignment.rs);
`\x27` is the apostrophe used by the Rust format strings. -/
def Ty.display : Ty → Str
  | .String a => "String \x27" ++ a ++ "\x27"
  | .Integer a => "Integer \x27" ++ toString a ++ "\x27"
  | .Address a => "Address \x27[" ++ a.display ++ "]\x27"
  | .Untyped => "Untyped"

/-- Reduction of an `isize`-valued expression to the `usize` it is cast to
by `as usize`: two's-complement wrapping modulo `2 ^ 64`. -/
def wrap64 (z : Int) : Nat := (z % ((2 : Int) ^ 64)).toNat

/-- Mirrors `impl TryAdd<Address> for Address` of src/address.rs; the
`usize + usize` of the stack-pointer case wraps modulo `2 ^ 64`. -/
def Address.tryAddAddress : Address → Address → Except TryOperateTypes Address
  | .StackPointer i, .StackPointer j => .ok (.StackPointer ((i + j) % 2 ^ 64))
  | a1, a2 => .error (.IncompatibleTypes a1.display a2.display)

/-- Mirrors `impl TryAdd<isize> for Address` of src/address.rs: the
stack-pointer case computes `((i as isize) + j) as usize`. -/
def Address.tryAddInt : Address → Int → Except TryOperateTypes Address
  | .StackPointer i, j => .ok (.StackPointer (wrap64 ((i : Int) + j)))
  | a1, a2 => .error (.IncompatibleTypes a1.display (toString a2))

/-- Mirrors `Type::sub` of src/assignment.rs.  The stack-pointer case
computes the `usize` difference `i - j`, which wraps modulo `2 ^ 64`. -/
def Ty.sub : Ty → Ty → Except OperationError Ty
  | .Integer a, .Integer b => .ok (.Integer (a - b))
  | .Address (.StackPointer i), .Address (.StackPointer j) =>
      .ok (.Address (.StackPointer (wrap64 ((i : Int) - (j : Int)))))
  | t1, t2 => .error (.Subtraction t1 t2)

/-- Mirrors `Type::add` of src/assignment.rs. -/
def Ty.add : Ty → Ty → Except OperationError Ty
  | .Integer o1, .Integer o2 => .ok (.Integer (o1 + o2))
  | .Address addr, .Integer i =>
      match addr.tryAddInt i with
      | .ok a => .ok (.Address a)
      | .error e => .error (.TryAdd e)
  | .Address addr1, .Address addr2 =>
      match addr1.tryAddAddress addr2 with
      | .ok a => .ok (.Address a)
      | .error e => .error (.TryAdd e)
  | .String a, .Integer b => .ok (.String (a ++ toString b))
  | .Integer a, .String b => .ok (.String (toString a ++ b))
  | .String a, .String b => .ok (.String (a ++ b))
  | a, b => .ok (.String (a.toStringRaw ++ b.toStringRaw))

/-- Mirrors `StackFrame` of src/interpreter.rs.  `register_state` is the
`RegisterMemory` triple `(rax, rbx, rcx)`. -/
structure StackFrame where
  return_address : Nat
  entered_with_jmp : Bool
  destination : Option Address
  register_state : Ty × Ty × Ty
deriving DecidableEq

/-- Mirrors `Memory` of src/memory.rs.  The call-frame collection is kept
in push order: `push_back` appends at the end and `pop` removes the last
(innermost) frame, the one consistent strict-LIFO reading of the source. -/
structure Memory where
  rax : Ty
  rbx : Ty
  rcx : Ty
  stack_frame : List StackFrame
  stack : List Ty
deriving DecidableEq

/-- Mirrors `Memory::register_state` of src/memory.rs. -/
def Memory.register_state (m : Memory) : Ty × Ty × Ty := (m.rax, m.rbx, m.rcx)

/-- Reading one register of the register file (the per-register match arms
of `Memory::get` in src/memory.rs). -/
def Memory.readRegister (m : Memory) : Register → Ty
  | .Rax => m.rax
  | .Rbx => m.rbx
  | .Rcx => m.rcx

/-- Writing one register of the register file (the per-register match arms
of `Memory::set` in src/memory.rs). -/
def Memory.writeRegister (m : Memory) (r : Register) (value : Ty) : Memory :=
  match r with
  | .Rax => { m with rax := value }
  | .Rbx => { m with rbx := value }
  | .Rcx => { m with rcx := value }

/-- Projection of the `RegisterMemory` triple at one register. -/
def regOf (t : Ty × Ty × Ty) : Register → Ty
  | .Rax => t.1
  | .Rbx => t.2.1
  | .Rcx => t.2.2

/-- Mirrors `Memory::get` of src/memory.rs.  The `Reference` arm of the
source recurses as `self.get(&Assignment::from(reference.clone()))`; since
`From<Destination>` yields exactly `Address::Register` or
`Address::StackPointer`, that recursive call is unfolded here into the two
base cases it reaches (see `Memory.get_reference` below, which proves the
unfolding faithful to the recursion). -/
def Memory.get (m : Memory) : Assignment → Except MemoryError Ty
  | .Value value => .ok value
  | .Address (.Register register) => .ok (m.readRegister register)
  | .Address (.StackPointer index) =>
      if m.stack.length ≤ index then
        .error (.Read (.Address (.StackPointer index)))
      else
        .ok (m.stack.getD index .Untyped)
  | .Address (.Reference (.Register register)) => .ok (m.readRegister register)
  | .Address (.Reference (.StackPointer index)) =>
      if m.stack.length ≤ index then
        .error (.Read (.Address (.StackPointer index)))
      else
        .ok (m.stack.getD index .Untyped)

/-- The `Reference` arm of `Memory.get` computes exactly the source's
recursive call `self.get(&Assignment::from(reference))`. -/
theorem Memory.get_reference (m : Memory) (d : Destination) :
    m.get (.Address (.Reference d)) = m.get (Assignment.fromDestination d) := by
  cases d <;> rfl

/-- Message of the segmentation fault raised by `usize_from` for a
`Register` pointer target (src/memory.rs). -/
def segvRegisterMsg : String := "Cannot read a registers position"

/-- Message of the segmentation fault raised by `usize_from` for a nested
`Reference` pointer target (src/memory.rs). -/
def segvReferenceMsg : String := "Only single pointers supported"

/-- Mirrors the inner helper `usize_from` of `Memory::set` in
src/memory.rs: coerces a value read through a `Reference` destination to a
slot index.  A positive `isize` within bounds is cast with `as usize`
(exact for positive values); a `StackPointer` address passes its index
through with no bounds check. -/
def usizeFrom (m : Memory) : Ty → Except MemoryError Nat
  | .Integer integer_value =>
      if integer_value ≤ 0 ∨ m.stack.length ≤ integer_value.toNat then
        .error (.Read (.Value (.Integer integer_value)))
      else
        .ok integer_value.toNat
  | .Address a =>
      match a with
      | .StackPointer i => .ok i
      | .Register _ => .error (.SegmentationFault segvRegisterMsg)
      | .Reference _ => .error (.SegmentationFault segvReferenceMsg)
  | .String t => .error (.Read (.Value (.String t)))
  | .Untyped => .error (.Read (.Value .Untyped))

/-- Result of a state mutation that can fail with a `MemoryError` or panic
(out-of-bounds slice indexing in the Rust source). -/
inductive WResult (α : Type)
  | ok (a : α)
  | err (e : MemoryError)
  | panic
deriving DecidableEq

/-- Mirrors `Memory::set` of src/memory.rs.  In the `Reference` arm the
source writes `self.stack[address] = value` with no bounds check, which
panics when `address` is out of range: that unguarded indexing is the
explicit `panic` outcome here. -/
def Memory.set (m : Memory) (destination : Address) (value : Ty) : WResult Memory :=
  match destination with
  | .Register register => .ok (m.writeRegister register value)
  | .StackPointer index =>
      if m.stack.length ≤ index then
        .err (.Write (.StackPointer index))
      else
        .ok { m with stack := m.stack.set index value }
  | .Reference dest =>
      match m.get (Assignment.fromDestination dest) with
      | .error e => .err e
      | .ok ty =>
          match usizeFrom m ty with
          | .error e => .err e
          | .ok address =>
              if address < m.stack.length then
                .ok { m with stack := m.stack.set address value }
              else
                .panic

/-- Mirrors `JumpDestination` of src/jump.rs. -/
inductive JumpDestination
  | Label (l : String)
deriving DecidableEq

/-- Mirrors `Command` of src/command.rs. -/
inductive Command
  | Mov (destination : Address) (assignment : Assignment)
  | Add (destination : Address) (operand1 operand2 : Assignment)
  | Sub (destination : Address) (operand1 operand2 : Assignment)
  | LoadEffectiveAddress (destination : Address) (source : Address)
  | CallRet (destination : Address) (j : JumpDestination)
  | CallVoid (j : JumpDestination)
  | Jmp (j : JumpDestination)
  | Label (l : String)
  | Return (assignment : Assignment)
  | Syscall (j : JumpDestination)
  | Leave
deriving DecidableEq

/-- Does a character list contain the substitution marker (an opening brace
immediately followed by a closing brace), as Rust's
`format.contains("\x7b\x7d")` checks in src/command.rs. -/
def containsMarker : List Char → Bool
  | '\x7b' :: '\x7d' :: _ => true
  | _ :: rest => containsMarker rest
  | [] => false

/-- Replace every non-overlapping left-to-right occurrence of the marker by
`arg`, as Rust's `format.replace("\x7b\x7d", arg)` does in src/command.rs
(note: `str::replace` replaces every occurrence, not only the first). -/
def replaceMarker (arg : List Char) : List Char → List Char
  | '\x7b' :: '\x7d' :: rest => arg ++ replaceMarker arg rest
  | c :: rest => c :: replaceMarker arg rest
  | [] => []

/-- `containsMarker` on a string. -/
def strContainsMarker (s : String) : Bool := containsMarker s.toList

/-- `replaceMarker` on strings. -/
def strReplaceMarker (s arg : String) : String := ⟨replaceMarker arg.toList s.toList⟩

/-- The label of the printf syscall. -/
def printfLabel : String := "printf"

/-- Expected-type string of the printf `WrongType` error (src/command.rs). -/
def stringTypeName : String := "String"

/-- Mirrors `Command::execute` of src/command.rs: the data effect of one
command on the memory, together with the lines printed by the command (the
`println!` of the printf syscall).  `program_pointer` is the index of the
executing instruction, recorded as the `return_address` of every pushed
call frame. -/
def Command.execute (c : Command) (memory : Memory) (program_pointer : Nat) :
    WResult (Memory × List String) :=
  match c with
  | .Mov destination assignment =>
      match memory.get assignment with
      | .error e => .err e
      | .ok v =>
          match memory.set destination v with
          | .ok m => .ok (m, [])
          | .err e => .err e
          | .panic => .panic
  | .Add destination operand1 operand2 =>
      match memory.get operand1, memory.get operand2 with
      | .error e, _ => .err e
      | .ok _, .error e => .err e
      | .ok v1, .ok v2 =>
          match v1.add v2 with
          | .error o => .err (.OperationError o)
          | .ok result =>
              match memory.set destination result with
              | .ok m => .ok (m, [])
              | .err e => .err e
              | .panic => .panic
  | .Sub destination operand1 operand2 =>
      match memory.get operand1, memory.get operand2 with
      | .error e, _ => .err e
      | .ok _, .error e => .err e
      | .ok v1, .ok v2 =>
          match v1.sub v2 with
          | .error o => .err (.OperationError o)
          | .ok result =>
              match memory.set destination result with
              | .ok m => .ok (m, [])
              | .err e => .err e
              | .panic => .panic
  | .CallRet destination (.Label _) =>
      .ok ({ memory with
              stack_frame := memory.stack_frame ++
                [⟨program_pointer, false, some destination, memory.register_state⟩] }, [])
  | .CallVoid (.Label _) =>
      .ok ({ memory with
              stack_frame := memory.stack_frame ++
                [⟨program_pointer, false, none, memory.register_state⟩] }, [])
  | .Jmp (.Label _) =>
      .ok ({ memory with
              stack_frame := memory.stack_frame ++
                [⟨program_pointer, true, none, memory.register_state⟩] }, [])
  | .Syscall (.Label label) =>
      if label = printfLabel then
        match memory.rax with
        | .String format =>
            let final_str :=
              if strContainsMarker format then
                strReplaceMarker format memory.rbx.toStringRaw
              else
                format
            .ok (memory, [final_str])
        | rest => .err (.OperationError (.WrongType stringTypeName rest.display))
      else
        .ok (memory, [])
  | .LoadEffectiveAddress destination source =>
      match memory.set destination (.Address source) with
      | .ok m => .ok (m, [])
      | .err e => .err e
      | .panic => .panic
  | .Label _ => .ok (memory, [])
  | .Return _ => .ok (memory, [])
  | .Leave => .ok (memory, [])

/-- Mirrors `SemanticError` of src/interpreter.rs. -/
inductive SemanticError
  | ReturnMissing (label : String)
  | LeaveMissing (label : String)
deriving DecidableEq

/-- Mirrors `ProgramError` of src/program_error.rs (`Parse` carries the
`ParseError` message). -/
inductive ProgramError
  | Parse (message : String)
  | Memory (e : MemoryError)
  | Semantic (e : SemanticError)
  | LabelNotFound (l : String)
deriving DecidableEq

/-- Mirrors `Interpreter` of src/interpreter.rs. -/
structure Interpreter where
  program_pointer : Nat
  memory : Memory
  source_code : List Command
deriving DecidableEq

/-- Is `c` the label definition of `target` — the predicate of the
`position` searches in src/jump.rs and src/interpreter.rs. -/
def isLabelFor (target : String) : Command → Bool
  | .Label source_label => source_label == target
  | _ => false

/-- Index of the first definition of `target` in the program, the
`iter().position(...)` scans of src/jump.rs and src/interpreter.rs. -/
def findLabelIdx (src : List Command) (target : String) : Option Nat :=
  src.findIdx? (isLabelFor target)

/-- Is `c` a label definition for a label other than `target` — the guard
`Command::Label(label) if *label != *target_label` of
`JumpDestination::ends_with` in src/jump.rs. -/
def isForeignLabel (target : String) : Command → Bool
  | .Label label => !(label == target)
  | _ => false

/-- The forward scan of `JumpDestination::ends_with` (src/jump.rs), over
the program suffix starting at the target label's definition: a foreign
label definition fails with the provided semantic error, a command
satisfying `last_command` succeeds, and running off the end of the program
leaves the surrounding `while let` loop and succeeds. -/
def endsWithFrom (target_label : String) (last_command : Command → Bool)
    (e : SemanticError) : List Command → Except ProgramError Unit
  | [] => .ok ()
  | c :: rest =>
      if isForeignLabel target_label c then .error (.Semantic e)
      else if last_command c then .ok ()
      else endsWithFrom target_label last_command e rest

/-- Mirrors `JumpDestination::ends_with` of src/jump.rs. -/
def JumpDestination.ends_with (j : JumpDestination) (i : Interpreter)
    (last_command : Command → Bool) (error : String → SemanticError) :
    Except ProgramError Unit :=
  match j with
  | .Label target_label =>
      match findLabelIdx i.source_code target_label with
      | some index =>
          endsWithFrom target_label last_command (error target_label)
            (i.source_code.drop index)
      | none => .error (.LabelNotFound target_label)

/-- The terminator predicate for value-returning calls:
`matches!(command, Command::Return(_))` (src/interpreter.rs). -/
def isReturnCmd : Command → Bool
  | .Return _ => true
  | _ => false

/-- The terminator predicate for void calls and jumps:
`matches!(command, Command::Return(_) | Command::Leave)`
(src/interpreter.rs). -/
def isReturnOrLeave : Command → Bool
  | .Return _ => true
  | .Leave => true
  | _ => false

/-- The per-command body of `Interpreter::semantic_check`
(src/interpreter.rs). -/
def checkCommand (i : Interpreter) : Command → Except ProgramError Unit
  | .CallRet _ jump_destination =>
      jump_destination.ends_with i isReturnCmd .ReturnMissing
  | .CallVoid jump_destination =>
      jump_destination.ends_with i isReturnOrLeave .LeaveMissing
  | .Jmp jump_destination =>
      jump_destination.ends_with i isReturnOrLeave .LeaveMissing
  | _ => .ok ()

/-- The `for command in &self.source_code` loop of
`Interpreter::semantic_check`: the `?` operator stops at the first
error. -/
def checkAll (i : Interpreter) : List Command → Except ProgramError Unit
  | [] => .ok ()
  | c :: rest =>
      match checkCommand i c with
      | .ok _ => checkAll i rest
      | .error e => .error e

/-- Mirrors `Interpreter::semantic_check` of src/interpreter.rs. -/
def Interpreter.semantic_check (i : Interpreter) : Except ProgramError Unit :=
  checkAll i i.source_code

/-- Mirrors `Interpreter::search_label_jump` of src/interpreter.rs. -/
def Interpreter.search_label_jump (i : Interpreter) (target_label : String) :
    Except ProgramError Interpreter :=
  match findLabelIdx i.source_code target_label with
  | some index => .ok { i with program_pointer := index }
  | none => .error (.LabelNotFound target_label)

/-- Result of a control-flow mutation that can fail with a `ProgramError`
or panic (a panicking `Memory::set`, or the `assert_eq!` in the `Leave`
arm of src/interpreter.rs). -/
inductive PResult (α : Type)
  | ok (a : α)
  | err (e : ProgramError)
  | panic
deriving DecidableEq

/-- Mirrors `Interpreter::mutate` of src/interpreter.rs, restricted to the
commands of the `Command` enum of src/command.rs (the conditional-jump and
compare arms of the source refer to constructors that enum does not have).
Returns the optional terminal value together with the mutated
interpreter. -/
def Interpreter.mutate (i : Interpreter) (c : Command) :
    PResult (Option Ty × Interpreter) :=
  match c with
  | .CallVoid (.Label target_label)
  | .CallRet _ (.Label target_label)
  | .Jmp (.Label target_label) =>
      match i.search_label_jump target_label with
      | .ok i2 => .ok (none, i2)
      | .error e => .err e
  | .Return assignment =>
      match i.memory.get assignment with
      | .error e => .err (.Memory e)
      | .ok value =>
          match i.memory.stack_frame.getLast? with
          | none => .ok (some value, i)
          | some stack_frame =>
              let m1 := { i.memory with stack_frame := i.memory.stack_frame.dropLast }
              let m2 :=
                if stack_frame.entered_with_jmp then m1
                else { m1 with rax := stack_frame.register_state.1,
                               rbx := stack_frame.register_state.2.1,
                               rcx := stack_frame.register_state.2.2 }
              match stack_frame.destination with
              | some destination =>
                  match m2.set destination value with
                  | .ok m3 =>
                      .ok (none, { i with memory := m3,
                                          program_pointer := stack_frame.return_address })
                  | .err e => .err (.Memory e)
                  | .panic => .panic
              | none =>
                  .ok (none, { i with memory := m2,
                                      program_pointer := stack_frame.return_address })
  | .Leave =>
      match i.memory.stack_frame.getLast? with
      | none => .ok (some (.Integer 0), i)
      | some stack_frame =>
          match stack_frame.destination with
          | some _ => .panic
          | none =>
              let m1 := { i.memory with stack_frame := i.memory.stack_frame.dropLast }
              let m2 :=
                if stack_frame.entered_with_jmp then m1
                else { m1 with rax := stack_frame.register_state.1,
                               rbx := stack_frame.register_state.2.1,
                               rcx := stack_frame.register_state.2.2 }
              .ok (none, { i with memory := m2,
                                  program_pointer := stack_frame.return_address })
  | _ => .ok (none, i)

/-- Outcome of one iteration of the driver loop in src/main.rs. -/
inductive StepOutcome
  | next (i : Interpreter) (output : List String)
  | terminated (v : Ty) (output : List String)
  | stop
  | err (e : ProgramError)
  | panic
deriving DecidableEq

/-- One iteration of the driver loop of src/main.rs: fetch the command at
the program counter (`stop` when it is past the program), run its data
effect, apply its control-flow mutation, and — when no terminal value is
held — advance the program counter by one. -/
def Interpreter.step (i : Interpreter) : StepOutcome :=
  match i.source_code[i.program_pointer]? with
  | none => .stop
  | some command =>
      match command.execute i.memory i.program_pointer with
      | .err e => .err (.Memory e)
      | .panic => .panic
      | .ok (m2, out) =>
          match Interpreter.mutate { i with memory := m2 } command with
          | .err e => .err e
          | .panic => .panic
          | .ok (some v, _) => .terminated v out
          | .ok (none, i2) =>
              .next { i2 with program_pointer := i2.program_pointer + 1 } out

/-- The all-`Untyped` initial memory built by `Interpreter::from_str`
(src/interpreter.rs): empty frame stack and a 64-slot stack. -/
def initMemory : Memory :=
  ⟨.Untyped, .Untyped, .Untyped, [], List.replicate 64 .Untyped⟩

/-- The slice `&target[s..e]` of a character list. -/
def slice (target : List Char) (s e : Nat) : List Char := (target.take e).drop s

/-- The `for char in target.chars()` loop of `merge_quotes`
(src/command.rs), carried out over the remaining characters `rest` with
the accumulated `result`, the current `word_range` bounds `s..e` and the
`open_bracket` flag; it returns the loop-exit state `(result, s, e)`.
The first match arm breaks on a semicolon unconditionally — before the
quote arms, so also inside an open double-quoted span. -/
def mergeLoop (target : List Char) :
    List Char → List (List Char) → Nat → Nat → Bool → List (List Char) × Nat × Nat
  | [], result, s, e, _ => (result, s, e)
  | c :: rest, result, s, e, openB =>
      if c = '\x3b' then (result, s, e)
      else if c = '\x20' ∧ openB = false then
        let word := slice target s e
        mergeLoop target rest (if word ≠ [] then result ++ [word] else result)
          (e + 1) (e + 1) openB
      else if c = '\x22' then mergeLoop target rest result s (e + 1) (!openB)
      else mergeLoop target rest result s (e + 1) openB

/-- Mirrors `merge_quotes` of src/command.rs over character lists (byte
offsets of the source coincide with character counts on the ASCII program
text).  After the loop, the final word `&target[word_range]` is pushed when
non-empty. -/
def merge_quotes (target : List Char) : List (List Char) :=
  match mergeLoop target target [] 0 0 false with
  | (result, s, e) =>
      let word := slice target s e
      if word ≠ [] then result ++ [word] else result

/-- Decidable equality for `Except`, so that concrete runs of the embedded
functions can be checked by `decide`. -/
instance {ε α : Type} [DecidableEq ε] [DecidableEq α] : DecidableEq (Except ε α) := fun a b =>
  match a, b with
  | .ok x, .ok y =>
      if h : x = y then .isTrue (by rw [h]) else .isFalse (fun hc => h (by injection hc))
  | .error x, .error y =>
      if h : x = y then .isTrue (by rw [h]) else .isFalse (fun hc => h (by injection hc))
  | .ok _, .error _ => .isFalse (fun hc => Except.noConfusion hc)
  | .error _, .ok _ => .isFalse (fun hc => Except.noConfusion hc)

/-! ### Concrete machine states and programs used as witnesses -/

/-- A memory whose register `rax` holds `Integer 5` while stack slot 5
holds `Integer 99`: it separates "the value stored at X" from "the value
stored at the location named by the value at X". -/
def m1 : Memory :=
  ⟨.Integer 5, .Untyped, .Untyped, [], (List.replicate 64 Ty.Untyped).set 5 (.Integer 99)⟩

/-- A memory for the printf syscall whose format text contains the marker
twice and whose `rbx` holds `Integer 3`. -/
def m2 : Memory := ⟨.String "\x7b\x7d\x7b\x7d", .Integer 3, .Untyped, [], []⟩

/-- The spec's printf example memory: `r0 = Text("\x7b\x7d items")`,
`r1 = Integer(3)`. -/
def m2b : Memory := ⟨.String "\x7b\x7d items", .Integer 3, .Untyped, [], []⟩

/-- A printf memory whose `rax` holds a non-Text value. -/
def m2c : Memory := ⟨.Integer 1, .Untyped, .Untyped, [], []⟩

/-! ### Claim C1 -/

/-- Claim C1, counterexample: reading the `Reference` operand `[rax]` in
`m1` yields `Integer 5` — the value stored at `rax` itself — although the
value stored at the location named by that value (stack slot 5) is
`Integer 99`.  So `Memory::get` does not perform the second lookup the
claim describes. -/
theorem c1_counterexample :
    m1.get (.Address (.Reference (.Register .Rax))) = .ok (.Integer 5) ∧
    m1.stack.getD 5 .Untyped = .Integer 99 ∧
    Ty.Integer 5 ≠ Ty.Integer 99 :=
  ⟨rfl, by decide, by decide⟩

/-- Claim C1, amended: a read (`get`) of a `Reference` operand performs a
single lookup — it returns the value stored at the referenced location
itself (register contents, or the bounds-checked stack-slot contents); no
second lookup through the resolved value is performed on reads.  (The
double resolution exists only for `Reference` write destinations in
`Memory::set`.) -/
theorem c1_single_lookup (m : Memory) (d : Destination) :
    m.get (.Address (.Reference d)) = m.get (Assignment.fromDestination d) ∧
    (∀ r, m.get (.Address (.Reference (.Register r))) = .ok (m.readRegister r)) ∧
    (∀ i, i < m.stack.length →
        m.get (.Address (.Reference (.StackPointer i))) = .ok (m.stack.getD i .Untyped)) ∧
    (∀ i, m.stack.length ≤ i →
        m.get (.Address (.Reference (.StackPointer i))) =
          .error (.Read (.Address (.StackPointer i)))) := by
  refine ⟨Memory.get_reference m d, fun r => rfl, fun i h => ?_, fun i h => ?_⟩
  · simp only [Memory.get, if_neg (by omega : ¬ m.stack.length ≤ i)]
  · simp only [Memory.get, if_pos h]

/-- Witness for `c1_single_lookup` at concrete inputs. -/
theorem c1_single_lookup_witness :
    m1.get (.Address (.Reference (.StackPointer 3))) = .ok .Untyped ∧
    m1.get (.Address (.Reference (.StackPointer 70))) =
      .error (.Read (.Address (.StackPointer 70))) := by
  constructor
  · exact ((c1_single_lookup m1 (.StackPointer 3)).2.2.1 3 (by decide)).trans (by decide)
  · exact (c1_single_lookup m1 (.StackPointer 70)).2.2.2 70 (by decide)

/-! ### Claim C2 -/

/-- Claim C2, counterexample: with `r0 = Text` holding the marker twice and
`r1 = Integer 3`, the printf syscall prints `33` — every occurrence of the
marker is replaced (Rust `str::replace`), not exactly the first occurrence,
which would print `3` followed by a literal marker. -/
theorem c2_counterexample :
    Command.execute (.Syscall (.Label printfLabel)) m2 0 = .ok (m2, ["33"]) ∧
    ("33" : String) ≠ "3\x7b\x7d" :=
  ⟨by decide, by decide⟩

/-- Claim C2, amended: when the printf syscall executes, a Text value in
`rax` containing the marker has every occurrence (not only the first) of
the marker replaced by `rbx`'s raw textual form and the result is printed;
Text without the marker is printed unchanged; a non-Text `rax` fails with a
`WrongType` error.  With `r0 = Text("\x7b\x7d items")` and
`r1 = Integer 3` the printed line is exactly `3 items`. -/
theorem c2_printf (m : Memory) (pp : Nat) :
    (∀ format, m.rax = .String format →
        Command.execute (.Syscall (.Label printfLabel)) m pp =
          .ok (m, [if strContainsMarker format then
                      strReplaceMarker format m.rbx.toStringRaw
                    else format])) ∧
    (∀ format, m.rax = .String format → strContainsMarker format = false →
        Command.execute (.Syscall (.Label printfLabel)) m pp = .ok (m, [format])) ∧
    ((∀ s, m.rax ≠ .String s) →
        Command.execute (.Syscall (.Label printfLabel)) m pp =
          .err (.OperationError (.WrongType stringTypeName m.rax.display))) ∧
    Command.execute (.Syscall (.Label printfLabel)) m2b 0 = .ok (m2b, ["3 items"]) := by
  refine ⟨fun format h => ?_, fun format h hm => ?_, fun hns => ?_, by decide⟩
  · simp only [Command.execute, if_pos rfl, h, if_true]
  · simp only [Command.execute, if_pos rfl, h, hm, Bool.false_eq_true, if_false, if_true]
  · cases hrax : m.rax with
    | String s => exact absurd hrax (hns s)
    | Integer z => simp only [Command.execute, if_pos rfl, hrax, if_true]
    | Address a => simp only [Command.execute, if_pos rfl, hrax, if_true]
    | Untyped => simp only [Command.execute, if_pos rfl, hrax, if_true]

/-- Witness for `c2_printf` at concrete inputs. -/
theorem c2_printf_witness :
    Command.execute (.Syscall (.Label printfLabel)) m2b 0 = .ok (m2b, ["3 items"]) ∧
    Command.execute (.Syscall (.Label printfLabel)) m2c 0 =
      .err (.OperationError (.WrongType stringTypeName "Integer \x271\x27")) := by
  constructor
  · exact ((c2_printf m2b 0).1 ("\x7b\x7d items") rfl).trans (by decide)
  · refine ((c2_printf m2c 0).2.2.1 ?_).trans (by decide)
    intro s hs
    rw [show m2c.rax = Ty.Integer 1 from rfl] at hs
    exact Ty.noConfusion hs

/-! ### Claim C6 -/

/-- Claim C6: full characterization of `Type::add`.  Integer+Integer gives
the Integer sum; StackSlot+Integer and StackSlot+StackSlot give a StackSlot
with the summed index (stated below the wrap-free bounds of `usize`); every
other Address combination with an Integer or Address right operand fails
with `IncompatibleTypes`; every remaining combination concatenates the two
operands' raw textual forms into Text, `Untyped` contributing empty
text. -/
theorem c6_add_characterization :
    (∀ a b : Int, Ty.add (.Integer a) (.Integer b) = .ok (.Integer (a + b))) ∧
    (∀ (i : Nat) (j : Int), 0 ≤ (i : Int) + j → (i : Int) + j < 2 ^ 64 →
        Ty.add (.Address (.StackPointer i)) (.Integer j) =
          .ok (.Address (.StackPointer ((i : Int) + j).toNat))) ∧
    (∀ i j : Nat, i + j < 2 ^ 64 →
        Ty.add (.Address (.StackPointer i)) (.Address (.StackPointer j)) =
          .ok (.Address (.StackPointer (i + j)))) ∧
    (∀ (a : Address) (j : Int), (∀ i : Nat, a ≠ .StackPointer i) →
        ∃ s t, Ty.add (.Address a) (.Integer j) =
          .error (.TryAdd (.IncompatibleTypes s t))) ∧
    (∀ a1 a2 : Address, (∀ i j : Nat, ¬(a1 = .StackPointer i ∧ a2 = .StackPointer j)) →
        ∃ s t, Ty.add (.Address a1) (.Address a2) =
          .error (.TryAdd (.IncompatibleTypes s t))) ∧
    (∀ (s : String) (t : Ty), Ty.add (.String s) t = .ok (.String (s ++ t.toStringRaw))) ∧
    (∀ (z : Int) (t : Ty), (∀ w, t ≠ .Integer w) →
        Ty.add (.Integer z) t = .ok (.String (toString z ++ t.toStringRaw))) ∧
    (∀ t : Ty, Ty.add .Untyped t = .ok (.String t.toStringRaw)) ∧
    (∀ (a : Address) (s : String),
        Ty.add (.Address a) (.String s) = .ok (.String ((Ty.Address a).toStringRaw ++ s))) ∧
    (∀ a : Address, Ty.add (.Address a) .Untyped = .ok (.String ((Ty.Address a).toStringRaw))) := by
  refine ⟨fun a b => rfl, fun i j h0 hlt => ?_, fun i j hlt => ?_, fun a j ha => ?_,
      fun a1 a2 h => ?_, fun s t => ?_, fun z t ht => ?_, fun t => ?_,
      fun a s => rfl, fun a => ?_⟩
  · simp only [Ty.add, Address.tryAddInt, wrap64, Int.emod_eq_of_lt h0 hlt]
  · simp only [Ty.add, Address.tryAddAddress, Nat.mod_eq_of_lt hlt]
  · cases a with
    | StackPointer i => exact absurd rfl (ha i)
    | Register r => exact ⟨_, _, rfl⟩
    | Reference d => exact ⟨_, _, rfl⟩
  · cases a1 <;> cases a2 <;> first
      | exact ⟨_, _, rfl⟩
      | exact absurd ⟨rfl, rfl⟩ (h _ _)
  · cases t <;> rfl
  · cases t with
    | Integer w => exact absurd rfl (ht w)
    | String s => rfl
    | Address a => rfl
    | Untyped => rfl
  · cases t <;> rfl
  · have h : Ty.add (.Address a) .Untyped =
        .ok (.String ((Ty.Address a).toStringRaw ++ "")) := rfl
    rw [h, String.append_empty]

/-- Witness for `c6_add_characterization` at concrete inputs. -/
theorem c6_add_witness :
    Ty.add (.Address (.StackPointer 1)) (.Integer 2) = .ok (.Address (.StackPointer 3)) ∧
    Ty.add (.Address (.StackPointer 2)) (.Address (.StackPointer 3)) =
      .ok (.Address (.StackPointer 5)) ∧
    (∃ s t, Ty.add (.Address (.Register .Rax)) (.Integer 1) =
      .error (.TryAdd (.IncompatibleTypes s t))) ∧
    (∃ s t, Ty.add (.Address (.Register .Rax)) (.Address (.StackPointer 0)) =
      .error (.TryAdd (.IncompatibleTypes s t))) ∧
    Ty.add (.Integer 1) (.Address (.StackPointer 2)) = .ok (.String "10x2") := by
  refine ⟨?_, ?_, ?_, ?_, ?_⟩
  · exact (c6_add_characterization.2.1 1 2 (by decide) (by decide)).trans (by decide)
  · exact c6_add_characterization.2.2.1 2 3 (by decide)
  · exact c6_add_characterization.2.2.2.1 (.Register .Rax) 1
      (fun i h => Address.noConfusion h)
  · exact c6_add_characterization.2.2.2.2.1 (.Register .Rax) (.StackPointer 0)
      (fun i j hij => Address.noConfusion hij.1)
  · exact (c6_add_characterization.2.2.2.2.2.2.1 1 (.Address (.StackPointer 2))
      (fun w h => Ty.noConfusion h)).trans (by decide)

/-! ### Claim C7 -/

/-- Claim C7: `Type::sub` succeeds exactly for Integer−Integer (the Integer
difference) and StackSlot−StackSlot (the StackSlot index difference, stated
below the wrap-free bounds of the `usize` subtraction); every other
combination fails with a `Subtraction` error carrying both operands. -/
theorem c7_sub_characterization :
    (∀ a b : Int, Ty.sub (.Integer a) (.Integer b) = .ok (.Integer (a - b))) ∧
    (∀ i j : Nat, j ≤ i → i < 2 ^ 64 →
        Ty.sub (.Address (.StackPointer i)) (.Address (.StackPointer j)) =
          .ok (.Address (.StackPointer (i - j)))) ∧
    (∀ t1 t2 : Ty,
        (∀ a b : Int, ¬(t1 = .Integer a ∧ t2 = .Integer b)) →
        (∀ i j : Nat, ¬(t1 = .Address (.StackPointer i) ∧ t2 = .Address (.StackPointer j))) →
        Ty.sub t1 t2 = .error (.Subtraction t1 t2)) := by
  refine ⟨fun a b => rfl, fun i j hj hi => ?_, fun t1 t2 h1 h2 => ?_⟩
  · have h0 : (0 : Int) ≤ (i : Int) - (j : Int) := by omega
    have hlt : (i : Int) - (j : Int) < 2 ^ 64 := by
      have : ((2 : Int) ^ 64) = ((2 ^ 64 : Nat) : Int) := by norm_num
      omega
    simp only [Ty.sub, wrap64, Int.emod_eq_of_lt h0 hlt]
    congr 3
    omega
  · cases t1 with
    | Integer a =>
        cases t2 with
        | Integer b => exact absurd ⟨rfl, rfl⟩ (h1 a b)
        | String s => rfl
        | Address a2 => rfl
        | Untyped => rfl
    | String s => cases t2 <;> rfl
    | Untyped => cases t2 <;> rfl
    | Address a1 =>
        cases t2 with
        | Integer b => cases a1 <;> rfl
        | String s => cases a1 <;> rfl
        | Untyped => cases a1 <;> rfl
        | Address a2 =>
            cases a1 with
            | StackPointer i =>
                cases a2 with
                | StackPointer j => exact absurd ⟨rfl, rfl⟩ (h2 i j)
                | Register r => rfl
                | Reference d => rfl
            | Register r => cases a2 <;> rfl
            | Reference d => cases a2 <;> rfl

/-- Witness for `c7_sub_characterization` at concrete inputs. -/
theorem c7_sub_witness :
    Ty.sub (.Address (.StackPointer 5)) (.Address (.StackPointer 2)) =
      .ok (.Address (.StackPointer 3)) ∧
    Ty.sub (.Integer 1) (.String "a") =
      .error (.Subtraction (.Integer 1) (.String "a")) := by
  constructor
  · exact (c7_sub_characterization.2.1 5 2 (by decide) (by decide)).trans (by decide)
  · exact c7_sub_characterization.2.2 (.Integer 1) (.String "a")
      (fun a b hab => Ty.noConfusion hab.2)
      (fun i j hij => Ty.noConfusion hij.1)

/-! ### Claim C8 -/

/-- Claim C8: with the 64-slot stack, a direct write to StackSlot `i`
succeeds for every `i ≤ 63` (changing only that slot) and fails with the
bounds `Write` error for every `i ≥ 64`; the error is returned before any
mutation, so the machine state is unchanged (the `err` result carries no
new state). -/
theorem c8_stack_write_bounds (m : Memory) (i : Nat) (v : Ty)
    (hlen : m.stack.length = 64) :
    (i ≤ 63 → m.set (.StackPointer i) v = .ok { m with stack := m.stack.set i v }) ∧
    (64 ≤ i → m.set (.StackPointer i) v = .err (.Write (.StackPointer i))) := by
  constructor
  · intro h
    simp only [Memory.set, hlen, if_neg (by omega : ¬ (64 : Nat) ≤ i)]
  · intro h
    simp only [Memory.set, hlen, if_pos h]

/-- Witness for `c8_stack_write_bounds` at concrete inputs. -/
theorem c8_stack_write_bounds_witness :
    initMemory.set (.StackPointer 63) (.Integer 1) =
      .ok { initMemory with stack := initMemory.stack.set 63 (.Integer 1) } ∧
    initMemory.set (.StackPointer 64) (.Integer 1) = .err (.Write (.StackPointer 64)) :=
  ⟨(c8_stack_write_bounds initMemory 63 (.Integer 1) (by decide)).1 (by decide),
   (c8_stack_write_bounds initMemory 64 (.Integer 1) (by decide)).2 (by decide)⟩

/-! ### Claim C9 -/

/-- Claim C9: writing through a `Reference` whose referenced cell holds a
StackSlot Address uses the resolved index with no bounds check — for any
index at or past the stack length the write is an unguarded stack access,
i.e. a panic, not a `Write`/`Read` `MemoryError`; whereas the
Integer-pointer path demands `0 < z` and `z < stack length` (failing with a
`Read` error otherwise) before writing. -/
theorem c9_reference_write_unchecked (m : Memory) (d : Destination) (v : Ty) :
    (∀ i : Nat, m.get (Assignment.fromDestination d) = .ok (.Address (.StackPointer i)) →
        m.stack.length ≤ i → m.set (.Reference d) v = .panic) ∧
    (∀ z : Int, m.get (Assignment.fromDestination d) = .ok (.Integer z) →
        z ≤ 0 ∨ m.stack.length ≤ z.toNat →
        m.set (.Reference d) v = .err (.Read (.Value (.Integer z)))) ∧
    (∀ z : Int, m.get (Assignment.fromDestination d) = .ok (.Integer z) →
        0 < z → z.toNat < m.stack.length →
        m.set (.Reference d) v = .ok { m with stack := m.stack.set z.toNat v }) := by
  refine ⟨fun i hget hi => ?_, fun z hget hz => ?_, fun z hget hz hlt => ?_⟩
  · simp only [Memory.set, hget, usizeFrom, if_neg (by omega : ¬ i < m.stack.length)]
  · simp only [Memory.set, hget, usizeFrom, if_pos hz]
  · simp only [Memory.set, hget, usizeFrom,
      if_neg (by omega : ¬ (z ≤ 0 ∨ m.stack.length ≤ z.toNat)), if_pos hlt]

/-- The memory used as the `c9` witness: `rax` points at stack slot 99 (out
of the 64-slot range), `rbx` holds the non-positive pointer `Integer 0`,
`rcx` holds the in-range pointer `Integer 5`. -/
def m9 : Memory :=
  { initMemory with rax := .Address (.StackPointer 99), rbx := .Integer 0, rcx := .Integer 5 }

/-- Witness for `c9_reference_write_unchecked` at concrete inputs. -/
theorem c9_reference_write_unchecked_witness :
    m9.set (.Reference (.Register .Rax)) .Untyped = .panic ∧
    m9.set (.Reference (.Register .Rbx)) .Untyped = .err (.Read (.Value (.Integer 0))) ∧
    m9.set (.Reference (.Register .Rcx)) (.Integer 8) =
      .ok { m9 with stack := m9.stack.set 5 (.Integer 8) } := by
  refine ⟨?_, ?_, ?_⟩
  · exact (c9_reference_write_unchecked m9 (.Register .Rax) .Untyped).1 99 rfl (by decide)
  · exact (c9_reference_write_unchecked m9 (.Register .Rbx) .Untyped).2.1 0 rfl
      (Or.inl (by decide))
  · exact (c9_reference_write_unchecked m9 (.Register .Rcx) (.Integer 8)).2.2 5 rfl
      (by decide) (by decide)

/-! ### Claim C3 -/

/-- If every command of the scanned prefix neither defines a foreign label
nor satisfies the terminator predicate, and the next command satisfies the
predicate without being a foreign label, the scan succeeds there. -/
theorem endsWithFrom_hit (l : String) (p : Command → Bool) (e : SemanticError)
    (pre : List Command) (c : Command) (rest : List Command)
    (hpre : ∀ x ∈ pre, isForeignLabel l x = false ∧ p x = false)
    (hcf : isForeignLabel l c = false) (hcp : p c = true) :
    endsWithFrom l p e (pre ++ c :: rest) = .ok () := by
  induction pre with
  | nil => simp [endsWithFrom, hcf, hcp]
  | cons x xs ih =>
      have hx := hpre x (List.mem_cons_self x xs)
      simp only [List.cons_append, endsWithFrom, hx.1, hx.2, Bool.false_eq_true, if_false]
      exact ih (fun y hy => hpre y (List.mem_cons_of_mem x hy))

/-- If every command of the scanned prefix neither defines a foreign label
nor satisfies the terminator predicate, and the next command defines a
foreign label, the scan fails with the provided semantic error. -/
theorem endsWithFrom_foreign (l : String) (p : Command → Bool) (e : SemanticError)
    (pre : List Command) (c : Command) (rest : List Command)
    (hpre : ∀ x ∈ pre, isForeignLabel l x = false ∧ p x = false)
    (hcf : isForeignLabel l c = true) :
    endsWithFrom l p e (pre ++ c :: rest) = .error (.Semantic e) := by
  induction pre with
  | nil => simp [endsWithFrom, hcf]
  | cons x xs ih =>
      have hx := hpre x (List.mem_cons_self x xs)
      simp only [List.cons_append, endsWithFrom, hx.1, hx.2, Bool.false_eq_true, if_false]
      exact ih (fun y hy => hpre y (List.mem_cons_of_mem x hy))

/-- If no command of the scanned suffix defines a foreign label or
satisfies the terminator predicate, the scan runs off the end of the
program and succeeds. -/
theorem endsWithFrom_runoff (l : String) (p : Command → Bool) (e : SemanticError)
    (cmds : List Command)
    (h : ∀ x ∈ cmds, isForeignLabel l x = false ∧ p x = false) :
    endsWithFrom l p e cmds = .ok () := by
  induction cmds with
  | nil => rfl
  | cons x xs ih =>
      have hx := h x (List.mem_cons_self x xs)
      simp only [endsWithFrom, hx.1, hx.2, Bool.false_eq_true, if_false]
      exact ih (fun y hy => h y (List.mem_cons_of_mem x hy))

/-- `checkAll` succeeds exactly when every command passes `checkCommand`. -/
theorem checkAll_ok_iff (i : Interpreter) (cmds : List Command) :
    checkAll i cmds = .ok () ↔ ∀ c ∈ cmds, checkCommand i c = .ok () := by
  induction cmds with
  | nil => simp [checkAll]
  | cons x xs ih =>
      cases hx : checkCommand i x with
      | ok u =>
          cases u
          simp [checkAll, hx, ih]
      | error e => simp [checkAll, hx]

/-- Claim C3, amended: the static semantic check resolves each call/jump
label by a linear scan (failing with label-not-found when the label is
absent) and then scans forward from the label's definition; the scan
succeeds at the first command satisfying the required terminator predicate,
fails — naming the referenced label — when a different label definition
comes first, and, when it reaches the end of the program without meeting
either, it succeeds (the end of the program is accepted; a block that falls
off the end without a terminator passes the check).  The whole check
succeeds exactly when every call/jump instruction's scan succeeds. -/
theorem c3_semantic_check :
    (∀ (i : Interpreter) (l : String) (p : Command → Bool) (er : String → SemanticError),
        findLabelIdx i.source_code l = none →
        JumpDestination.ends_with (.Label l) i p er = .error (.LabelNotFound l)) ∧
    (∀ (i : Interpreter) (l : String) (p : Command → Bool) (er : String → SemanticError)
        (idx : Nat), findLabelIdx i.source_code l = some idx →
        JumpDestination.ends_with (.Label l) i p er =
          endsWithFrom l p (er l) (i.source_code.drop idx)) ∧
    (∀ (l : String) (p : Command → Bool) (e : SemanticError) (pre : List Command)
        (c : Command) (rest : List Command),
        (∀ x ∈ pre, isForeignLabel l x = false ∧ p x = false) →
        isForeignLabel l c = false → p c = true →
        endsWithFrom l p e (pre ++ c :: rest) = .ok ()) ∧
    (∀ (l : String) (p : Command → Bool) (e : SemanticError) (pre : List Command)
        (c : Command) (rest : List Command),
        (∀ x ∈ pre, isForeignLabel l x = false ∧ p x = false) →
        isForeignLabel l c = true →
        endsWithFrom l p e (pre ++ c :: rest) = .error (.Semantic e)) ∧
    (∀ (l : String) (p : Command → Bool) (e : SemanticError) (cmds : List Command),
        (∀ x ∈ cmds, isForeignLabel l x = false ∧ p x = false) →
        endsWithFrom l p e cmds = .ok ()) ∧
    (∀ i : Interpreter,
        i.semantic_check = .ok () ↔ ∀ c ∈ i.source_code, checkCommand i c = .ok ()) := by
  refine ⟨fun i l p er h => ?_, fun i l p er idx h => ?_,
      endsWithFrom_hit, endsWithFrom_foreign, endsWithFrom_runoff,
      fun i => checkAll_ok_iff i i.source_code⟩
  · simp [JumpDestination.ends_with, h]
  · simp [JumpDestination.ends_with, h]

/-- The program refuting C3's end-of-program clause: a void call to label
`a` whose block reaches the end of the program with no `Return`/`Leave`
terminator anywhere. -/
def progC3 : List Command := [.CallVoid (.Label "a"), .Label "a"]

/-- The interpreter loaded with `progC3`. -/
def interpC3 : Interpreter := ⟨0, initMemory, progC3⟩

/-- Claim C3, counterexample: no command of `progC3` is a `Return` or
`Leave`, so the called block never reaches the required terminator — yet
the pre-execution semantic check succeeds instead of failing as the claim
demands, because the forward scan that reaches the end of the program
without meeting a different label definition passes. -/
theorem c3_counterexample :
    interpC3.semantic_check = .ok () ∧
    (∀ c ∈ progC3, isReturnOrLeave c = false) :=
  ⟨rfl, by decide⟩

/-- Witness for `c3_semantic_check` at concrete inputs: a missing label is
reported as label-not-found; a foreign label definition reached first is
reported as the semantic error; a block of plain commands running off the
end of the program passes. -/
theorem c3_semantic_check_witness :
    JumpDestination.ends_with (.Label "a") ⟨0, initMemory, [.Label "b"]⟩
      isReturnCmd .ReturnMissing = .error (.LabelNotFound "a") ∧
    endsWithFrom "a" isReturnCmd (.ReturnMissing "a")
      ([.Mov (.Register .Rax) (.Value (.Integer 1))] ++ .Label "b" ::
        [.Return (.Value (.Integer 0))]) = .error (.Semantic (.ReturnMissing "a")) ∧
    endsWithFrom "a" isReturnCmd (.ReturnMissing "a")
      [.Label "a", .Mov (.Register .Rax) (.Value (.Integer 1))] = .ok () := by
  refine ⟨?_, ?_, ?_⟩
  · exact c3_semantic_check.1 ⟨0, initMemory, [.Label "b"]⟩ "a" isReturnCmd
      .ReturnMissing (by decide)
  · exact c3_semantic_check.2.2.2.1 "a" isReturnCmd (.ReturnMissing "a")
      [.Mov (.Register .Rax) (.Value (.Integer 1))] (.Label "b")
      [.Return (.Value (.Integer 0))] (by decide) (by decide)
  · have h := c3_semantic_check.2.2.2.2.1 "a" isReturnCmd (.ReturnMissing "a")
      [.Label "a", .Mov (.Register .Rax) (.Value (.Integer 1))] (by decide)
    exact h

/-! ### Claims C4 and C5: helper lemmas about `Interpreter.step` -/

/-- The memory produced by popping frame `f` (leaving frames `fs`) and
restoring the saved register snapshot unless the frame was entered via an
unconditional jump — the pop/restore sequence of the `Return` and `Leave`
arms of `Interpreter::mutate`. -/
def restorePop (m : Memory) (fs : List StackFrame) (f : StackFrame) : Memory :=
  if f.entered_with_jmp then { m with stack_frame := fs }
  else { m with stack_frame := fs,
                rax := f.register_state.1,
                rbx := f.register_state.2.1,
                rcx := f.register_state.2.2 }

theorem restorePop_stack_frame (m : Memory) (fs : List StackFrame) (f : StackFrame) :
    (restorePop m fs f).stack_frame = fs := by
  unfold restorePop
  split <;> rfl

theorem readRegister_restorePop (m : Memory) (fs : List StackFrame) (f : StackFrame)
    (r : Register) (hjmp : f.entered_with_jmp = false) :
    (restorePop m fs f).readRegister r = regOf f.register_state r := by
  cases r <;> simp [restorePop, hjmp, Memory.readRegister, regOf]

theorem readRegister_writeRegister_self (m : Memory) (r : Register) (v : Ty) :
    (m.writeRegister r v).readRegister r = v := by
  cases r <;> rfl

theorem readRegister_writeRegister_ne (m : Memory) (r r2 : Register) (v : Ty)
    (h : r2 ≠ r) : (m.writeRegister r v).readRegister r2 = m.readRegister r2 := by
  cases r <;> cases r2 <;> first | rfl | exact absurd rfl h

theorem stack_frame_writeRegister (m : Memory) (r : Register) (v : Ty) :
    (m.writeRegister r v).stack_frame = m.stack_frame := by
  cases r <;> rfl

theorem set_register (m : Memory) (r : Register) (v : Ty) :
    m.set (.Register r) v = .ok (m.writeRegister r v) := rfl

/-- `Interpreter::mutate` on a `Return` with at least one call frame: the
innermost (last-pushed) frame is popped, the snapshot is restored unless
the frame was entered via `jmp`, the value is written through the frame's
`destination` when present, and the program counter becomes the frame's
`return_address`. -/
theorem mutate_return_frame (i : Interpreter) (a : Assignment) (v : Ty)
    (fs : List StackFrame) (f : StackFrame)
    (hget : i.memory.get a = .ok v)
    (hfr : i.memory.stack_frame = fs ++ [f]) :
    i.mutate (.Return a) =
      (match f.destination with
       | none => .ok (none, { i with memory := restorePop i.memory fs f,
                                     program_pointer := f.return_address })
       | some d =>
          match (restorePop i.memory fs f).set d v with
          | .ok m3 => .ok (none, { i with memory := m3,
                                          program_pointer := f.return_address })
          | .err e => .err (.Memory e)
          | .panic => .panic) := by
  simp only [Interpreter.mutate, hget, hfr, List.getLast?_concat, List.dropLast_concat,
    restorePop]
  cases hj : f.entered_with_jmp <;>
    cases f.destination <;>
      simp [hj, hfr]

/-- `Interpreter::mutate` on a `Return` with an empty frame stack holds the
returned value as the terminal result. -/
theorem mutate_return_empty (i : Interpreter) (a : Assignment) (v : Ty)
    (hget : i.memory.get a = .ok v)
    (hfr : i.memory.stack_frame = []) :
    i.mutate (.Return a) = .ok (some v, i) := by
  simp only [Interpreter.mutate, hget, hfr]
  rfl

/-- One driver-loop iteration whose fetched command is known. -/
theorem step_of_fetch (i : Interpreter) (c : Command)
    (h : i.source_code[i.program_pointer]? = some c) :
    i.step =
      (match c.execute i.memory i.program_pointer with
       | .err e => .err (.Memory e)
       | .panic => .panic
       | .ok (m2, out) =>
          match Interpreter.mutate { i with memory := m2 } c with
          | .err e => .err e
          | .panic => .panic
          | .ok (some v, _) => .terminated v out
          | .ok (none, i2) =>
              .next { i2 with program_pointer := i2.program_pointer + 1 } out) := by
  simp only [Interpreter.step, h]

/-- Stepping a value-returning call: the frame pushed at call site `pp`
records `return_address = pp`, no jump entry, the caller's destination and
the register snapshot, and execution continues right after the label. -/
theorem step_callret (i : Interpreter) (d : Address) (l : String) (idx : Nat)
    (hfetch : i.source_code[i.program_pointer]? = some (.CallRet d (.Label l)))
    (hfind : findLabelIdx i.source_code l = some idx) :
    i.step = .next ⟨idx + 1,
      { i.memory with stack_frame := i.memory.stack_frame ++
          [⟨i.program_pointer, false, some d, i.memory.register_state⟩] },
      i.source_code⟩ [] := by
  rw [step_of_fetch i _ hfetch]
  simp only [Command.execute, Interpreter.mutate, Interpreter.search_label_jump, hfind]

/-- Stepping a `Return` with an empty frame stack terminates with the
returned value. -/
theorem step_return_terminal (i : Interpreter) (a : Assignment) (v : Ty)
    (hfetch : i.source_code[i.program_pointer]? = some (.Return a))
    (hget : i.memory.get a = .ok v)
    (hfr : i.memory.stack_frame = []) :
    i.step = .terminated v [] := by
  rw [step_of_fetch i _ hfetch]
  simp only [Command.execute]
  rw [show ({ i with memory := i.memory } : Interpreter) = i from rfl]
  rw [mutate_return_empty i a v hget hfr]

/-- Stepping a `Return` that pops a frame carrying no return slot: the
frame is popped, registers restored per the jump flag, the value is
discarded and execution resumes after the call site. -/
theorem step_return_none (i : Interpreter) (a : Assignment) (v : Ty)
    (fs : List StackFrame) (f : StackFrame)
    (hfetch : i.source_code[i.program_pointer]? = some (.Return a))
    (hget : i.memory.get a = .ok v)
    (hfr : i.memory.stack_frame = fs ++ [f])
    (hdest : f.destination = none) :
    i.step = .next ⟨f.return_address + 1, restorePop i.memory fs f, i.source_code⟩ [] := by
  rw [step_of_fetch i _ hfetch]
  simp only [Command.execute]
  rw [show ({ i with memory := i.memory } : Interpreter) = i from rfl]
  rw [mutate_return_frame i a v fs f hget hfr, hdest]

/-- Stepping a `Return` that pops a frame carrying a return slot which the
write reaches: the value lands in the slot after the snapshot restore, and
execution resumes after the call site. -/
theorem step_return_some (i : Interpreter) (a : Assignment) (v : Ty)
    (fs : List StackFrame) (f : StackFrame) (d : Address) (m3 : Memory)
    (hfetch : i.source_code[i.program_pointer]? = some (.Return a))
    (hget : i.memory.get a = .ok v)
    (hfr : i.memory.stack_frame = fs ++ [f])
    (hdest : f.destination = some d)
    (hset : (restorePop i.memory fs f).set d v = .ok m3) :
    i.step = .next ⟨f.return_address + 1, m3, i.source_code⟩ [] := by
  rw [step_of_fetch i _ hfetch]
  simp only [Command.execute]
  rw [show ({ i with memory := i.memory } : Interpreter) = i from rfl]
  rw [mutate_return_frame i a v fs f hget hfr, hdest]
  dsimp only
  rw [hset]

/-- Claim C4: executing `Return` with a non-empty frame stack pops the
innermost (last-pushed) frame; the value is written to the frame's
return slot when present and lands in the caller location (for a register
slot the write happens after the snapshot restore, so it survives it);
the register snapshot is restored unless the frame was entered via an
unconditional `jmp`; execution resumes at `return_address + 1`, the
instruction after the call site (a pushed frame's `return_address` is the
call instruction's own index, and the driver advances the program counter
once after the mutation).  With an empty frame stack the returned value is
the program's terminal result. -/
theorem c4_return_semantics :
    (∀ (i : Interpreter) (d : Address) (l : String) (idx : Nat),
        i.source_code[i.program_pointer]? = some (.CallRet d (.Label l)) →
        findLabelIdx i.source_code l = some idx →
        i.step = .next ⟨idx + 1,
          { i.memory with stack_frame := i.memory.stack_frame ++
              [⟨i.program_pointer, false, some d, i.memory.register_state⟩] },
          i.source_code⟩ []) ∧
    (∀ (i : Interpreter) (a : Assignment) (v : Ty),
        i.source_code[i.program_pointer]? = some (.Return a) →
        i.memory.get a = .ok v →
        i.memory.stack_frame = [] →
        i.step = .terminated v []) ∧
    (∀ (i : Interpreter) (a : Assignment) (v : Ty) (fs : List StackFrame) (f : StackFrame),
        i.source_code[i.program_pointer]? = some (.Return a) →
        i.memory.get a = .ok v →
        i.memory.stack_frame = fs ++ [f] →
        f.destination = none →
        i.step = .next ⟨f.return_address + 1, restorePop i.memory fs f, i.source_code⟩ []) ∧
    (∀ (i : Interpreter) (a : Assignment) (v : Ty) (fs : List StackFrame) (f : StackFrame)
        (d : Address) (m3 : Memory),
        i.source_code[i.program_pointer]? = some (.Return a) →
        i.memory.get a = .ok v →
        i.memory.stack_frame = fs ++ [f] →
        f.destination = some d →
        (restorePop i.memory fs f).set d v = .ok m3 →
        i.step = .next ⟨f.return_address + 1, m3, i.source_code⟩ []) ∧
    (∀ (i : Interpreter) (a : Assignment) (v : Ty) (fs : List StackFrame) (f : StackFrame)
        (r : Register),
        i.source_code[i.program_pointer]? = some (.Return a) →
        i.memory.get a = .ok v →
        i.memory.stack_frame = fs ++ [f] →
        f.destination = some (.Register r) →
        f.entered_with_jmp = false →
        i.step = .next ⟨f.return_address + 1,
          (restorePop i.memory fs f).writeRegister r v, i.source_code⟩ [] ∧
        ((restorePop i.memory fs f).writeRegister r v).readRegister r = v ∧
        (∀ r2, r2 ≠ r →
          ((restorePop i.memory fs f).writeRegister r v).readRegister r2 =
            regOf f.register_state r2) ∧
        ((restorePop i.memory fs f).writeRegister r v).stack_frame = fs) := by
  refine ⟨step_callret, step_return_terminal, step_return_none, step_return_some,
      fun i a v fs f r hfetch hget hfr hdest hjmp => ?_⟩
  refine ⟨step_return_some i a v fs f (.Register r) _ hfetch hget hfr hdest
      (set_register _ r v), readRegister_writeRegister_self _ r v,
      fun r2 h2 => ?_, ?_⟩
  · rw [readRegister_writeRegister_ne _ r r2 v h2,
      readRegister_restorePop i.memory fs f r2 hjmp]
  · rw [stack_frame_writeRegister, restorePop_stack_frame]

/-- The nested-call example program: the value-returning call at index 0
stores into `rbx`; label `f` is at index 2; its block returns `Integer 1`. -/
def progC4 : List Command :=
  [.CallRet (.Register .Rbx) (.Label "f"), .Leave, .Label "f",
   .Return (.Value (.Integer 1))]

/-- The initial interpreter for `progC4`, with a marker value in `rax` to
observe the snapshot restore. -/
def i0 : Interpreter := ⟨0, { initMemory with rax := .Integer 7 }, progC4⟩

/-- The frame pushed by the call of `progC4` at index 0. -/
def frame4 : StackFrame := ⟨0, false, some (.Register .Rbx), (.Integer 7, .Untyped, .Untyped)⟩

/-- The interpreter state after stepping the call of `progC4`. -/
def i1 : Interpreter :=
  ⟨3, { initMemory with rax := .Integer 7, stack_frame := [frame4] }, progC4⟩

/-- Witness for `c4_return_semantics` on a concrete run: the call pushes
`frame4` (saving `return_address = 0` and the register snapshot) and jumps
past the label; the `Return` pops it, restores `rax = Integer 7` from the
snapshot, writes `Integer 1` into the caller's `rbx` slot (surviving the
restore) and resumes at index 1, the instruction after the call site. -/
theorem c4_return_semantics_witness :
    i0.step = .next i1 [] ∧
    i1.step = .next ⟨1, { initMemory with rax := .Integer 7, rbx := .Integer 1 },
      progC4⟩ [] := by
  constructor
  · exact (c4_return_semantics.1 i0 (.Register .Rbx) "f" 2 rfl (by decide)).trans
      (by decide)
  · exact ((c4_return_semantics.2.2.2.2 i1 (.Value (.Integer 1)) (.Integer 1) []
      frame4 .Rbx rfl rfl rfl rfl rfl).1).trans (by decide)

/-! ### Claim C5 -/

/-- The interpreter refuting C5's rejection clause: a single `Return`
executing against a frame stack whose innermost frame has
`destination = none` (as every void-call or jump frame does). -/
def i5 : Interpreter :=
  ⟨0, { initMemory with stack_frame := [⟨0, false, none, (.Untyped, .Untyped, .Untyped)⟩] },
   [.Return (.Value (.Integer 7))]⟩

/-- Claim C5, counterexample: popping a `return_slot = None` frame with the
value-returning `Return` is not rejected — the step succeeds (no error, no
panic), the frame is popped, and the value `Integer 7` is silently
discarded. -/
theorem c5_counterexample :
    i5.step = .next ⟨1, initMemory, [.Return (.Value (.Integer 7))]⟩ [] ∧
    (∀ e, i5.step ≠ .err e) ∧ i5.step ≠ .panic := by
  refine ⟨by decide, fun e h => ?_, by decide⟩
  rw [show i5.step = .next ⟨1, initMemory, [.Return (.Value (.Integer 7))]⟩ []
    from by decide] at h
  exact StepOutcome.noConfusion h

/-- Claim C5, amended: every call frame created by a void call or by an
unconditional jump has `return_slot = None`; popping such a frame with a
value-returning `Return` is silently accepted — the returned value is
discarded, registers are restored per the jump flag, and execution resumes
after the frame's return address — rather than rejected as an error. -/
theorem c5_void_frames :
    (∀ (m : Memory) (pp : Nat) (l : String),
        Command.execute (.CallVoid (.Label l)) m pp =
          .ok ({ m with stack_frame := m.stack_frame ++
              [⟨pp, false, none, m.register_state⟩] }, [])) ∧
    (∀ (m : Memory) (pp : Nat) (l : String),
        Command.execute (.Jmp (.Label l)) m pp =
          .ok ({ m with stack_frame := m.stack_frame ++
              [⟨pp, true, none, m.register_state⟩] }, [])) ∧
    (∀ (i : Interpreter) (a : Assignment) (v : Ty) (fs : List StackFrame) (f : StackFrame),
        i.source_code[i.program_pointer]? = some (.Return a) →
        i.memory.get a = .ok v →
        i.memory.stack_frame = fs ++ [f] →
        f.destination = none →
        i.step = .next ⟨f.return_address + 1, restorePop i.memory fs f, i.source_code⟩ []) :=
  ⟨fun _ _ _ => rfl, fun _ _ _ => rfl, step_return_none⟩

/-- The memory of the C5 witness interpreter. -/
def i5bMemory : Memory :=
  { initMemory with
    rax := .Integer 9
    stack_frame := [⟨5, true, none, (.Integer 1, .Integer 2, .Integer 3)⟩] }

/-- The C5 witness interpreter: the innermost frame was entered with `jmp`
(so no snapshot restore) and records `return_address = 5`. -/
def i5b : Interpreter := ⟨0, i5bMemory, [.Return (.Value (.Integer 7))]⟩

/-- Witness for `c5_void_frames`: the `Return` pops the jump-entered
no-slot frame of `i5b`, keeps the live registers (no restore), discards
`Integer 7` and resumes at index 6. -/
theorem c5_void_frames_witness :
    i5b.step = .next ⟨6, { initMemory with rax := .Integer 9 },
      [.Return (.Value (.Integer 7))]⟩ [] := by
  exact (c5_void_frames.2.2 i5b (.Value (.Integer 7)) (.Integer 7) []
    ⟨5, true, none, (.Integer 1, .Integer 2, .Integer 3)⟩ rfl rfl rfl rfl).trans
    (by decide)

/-! ### Claim C10: the tokenizer discards everything from the first
semicolon on, also inside a double-quoted span -/

/-- Processing stops at a semicolon regardless of anything after it: the
loop over `rest1 ++ ;\x20:: rest2` equals the loop over `rest1` alone when
`rest1` holds no semicolon (the break arm precedes every other arm,
including the quote toggling). -/
theorem mergeLoop_break (target rest1 rest2 : List Char) (res : List (List Char))
    (s e : Nat) (o : Bool) (h : ∀ c ∈ rest1, c ≠ '\x3b') :
    mergeLoop target (rest1 ++ '\x3b' :: rest2) res s e o =
      mergeLoop target rest1 res s e o := by
  induction rest1 generalizing res s e o with
  | nil => simp [mergeLoop]
  | cons c r ih =>
      have hc : c ≠ '\x3b' := h c (List.mem_cons_self c r)
      have hr : ∀ x ∈ r, x ≠ '\x3b' := fun x hx => h x (List.mem_cons_of_mem c hx)
      simp only [List.cons_append, mergeLoop, if_neg hc]
      by_cases h2 : c = '\x20' ∧ o = false
      · simp only [if_pos h2]
        exact ih _ _ _ _ hr
      · simp only [if_neg h2]
        by_cases h3 : c = '\x22'
        · simp only [if_pos h3]
          exact ih _ _ _ _ hr
        · simp only [if_neg h3]
          exact ih _ _ _ _ hr

/-- A prefix-equality of two `take`s transfers to any smaller `take`. -/
theorem take_eq_of_take_eq {α : Type} (t1 t2 : List α) (bigN m : Nat)
    (h : t1.take bigN = t2.take bigN) (hm : m ≤ bigN) :
    t1.take m = t2.take m := by
  have h1 : t1.take m = (t1.take bigN).take m := by
    rw [List.take_take, Nat.min_eq_left hm]
  have h2 : t2.take m = (t2.take bigN).take m := by
    rw [List.take_take, Nat.min_eq_left hm]
  rw [h1, h2, h]

/-- The loop only ever slices the target below position
`e + rest.length`, so two targets agreeing on that prefix drive it
identically. -/
theorem mergeLoop_congr (t1 t2 rest : List Char) (res : List (List Char))
    (s e : Nat) (o : Bool)
    (h : t1.take (e + rest.length) = t2.take (e + rest.length)) :
    mergeLoop t1 rest res s e o = mergeLoop t2 rest res s e o := by
  induction rest generalizing res s e o with
  | nil => simp [mergeLoop]
  | cons c r ih =>
      have hslice : slice t1 s e = slice t2 s e := by
        unfold slice
        rw [take_eq_of_take_eq t1 t2 (e + (c :: r).length) e h (by omega)]
      have hnext : t1.take (e + 1 + r.length) = t2.take (e + 1 + r.length) := by
        have harith : e + 1 + r.length = e + (c :: r).length := by
          simp only [List.length_cons]
          omega
        rw [harith]
        exact h
      simp only [mergeLoop]
      by_cases h1 : c = '\x3b'
      · simp only [if_pos h1]
      · simp only [if_neg h1]
        by_cases h2 : c = '\x20' ∧ o = false
        · simp only [if_pos h2, hslice]
          exact ih _ _ _ _ hnext
        · simp only [if_neg h2]
          by_cases h3 : c = '\x22'
          · simp only [if_pos h3]
            exact ih _ _ _ _ hnext
          · simp only [if_neg h3]
            exact ih _ _ _ _ hnext

/-- The end position returned by the loop is bounded by the start position
plus the number of remaining characters. -/
theorem mergeLoop_e_le (target rest : List Char) (res : List (List Char))
    (s e : Nat) (o : Bool) :
    (mergeLoop target rest res s e o).2.2 ≤ e + rest.length := by
  induction rest generalizing res s e o with
  | nil => simp [mergeLoop]
  | cons c r ih =>
      simp only [mergeLoop]
      by_cases h1 : c = '\x3b'
      · simp only [if_pos h1, List.length_cons]
        omega
      · simp only [if_neg h1]
        by_cases h2 : c = '\x20' ∧ o = false
        · simp only [if_pos h2]
          refine le_trans (ih _ _ _ _) ?_
          simp only [List.length_cons]
          omega
        · simp only [if_neg h2]
          by_cases h3 : c = '\x22'
          · simp only [if_pos h3]
            refine le_trans (ih _ _ _ _) ?_
            simp only [List.length_cons]
            omega
          · simp only [if_neg h3]
            refine le_trans (ih _ _ _ _) ?_
            simp only [List.length_cons]
            omega

/-- Splitting a character list at its first semicolon. -/
theorem semicolon_split (cs : List Char) (h : '\x3b' ∈ cs) :
    ∃ suf, cs = cs.takeWhile (fun c => c != '\x3b') ++ '\x3b' :: suf := by
  induction cs with
  | nil => cases h
  | cons c r ih =>
      by_cases hc : c = '\x3b'
      · subst hc
        exact ⟨r, by simp [List.takeWhile_cons]⟩
      · have hmem : '\x3b' ∈ r := by
          cases List.mem_cons.mp h with
          | inl h1 => exact absurd h1.symm hc
          | inr h2 => exact h2
        obtain ⟨suf, hsuf⟩ := ih hmem
        refine ⟨suf, ?_⟩
        simp only [List.takeWhile_cons, bne_iff_ne, ne_eq, hc, not_false_eq_true,
          if_true, List.cons_append]
        exact congrArg (c :: ·) hsuf

/-- A character list without a semicolon is its own semicolon-free
prefix. -/
theorem takeWhile_of_no_semicolon (cs : List Char) (h : '\x3b' ∉ cs) :
    cs.takeWhile (fun c => c != '\x3b') = cs := by
  induction cs with
  | nil => rfl
  | cons c r ih =>
      have hc : c ≠ '\x3b' := fun hcc => h (hcc ▸ List.mem_cons_self c r)
      have hr : '\x3b' ∉ r := fun hm => h (List.mem_cons_of_mem c hm)
      simp [List.takeWhile_cons, hc, ih hr]

/-- Claim C10: tokenization depends only on the part of the line before the
first semicolon — the semicolon and everything after it are discarded
unconditionally, even inside a double-quoted span — and on the concrete
line `mov rax "3;4"` the quoted literal is truncated before grammar
selection: it tokenizes as `mov`, `rax`, `"3` instead of one atomic quoted
token, so the line cannot parse with its quoted content intact. -/
theorem c10_semicolon_truncation :
    (∀ cs : List Char, merge_quotes cs = merge_quotes (cs.takeWhile (fun c => c != '\x3b'))) ∧
    merge_quotes ['m', 'o', 'v', '\x20', 'r', 'a', 'x', '\x20', '\x22', '3', '\x3b', '4', '\x22'] =
      [['m', 'o', 'v'], ['r', 'a', 'x'], ['\x22', '3']] := by
  constructor
  · intro cs
    by_cases h : '\x3b' ∈ cs
    · obtain ⟨suf, hsuf⟩ := semicolon_split cs h
      set p := cs.takeWhile (fun c => c != '\x3b') with hp
      have hnos : ∀ x ∈ p, x ≠ '\x3b' := by
        intro x hx
        have := List.mem_takeWhile_imp hx
        simpa using this
      have htake : cs.take p.length = p.take p.length := by
        conv_lhs => rw [hsuf]
        rw [List.take_left, List.take_length]
      have hloop : mergeLoop cs cs [] 0 0 false = mergeLoop p p [] 0 0 false := by
        conv_lhs => rw [show cs = p ++ '\x3b' :: suf from hsuf]
        rw [mergeLoop_break (p ++ '\x3b' :: suf) p suf [] 0 0 false hnos]
        refine mergeLoop_congr (p ++ '\x3b' :: suf) p p [] 0 0 false ?_
        rw [show (p ++ '\x3b' :: suf : List Char) = cs from hsuf.symm]
        simpa using htake
      have hE := mergeLoop_e_le p p [] 0 0 false
      rcases hres : mergeLoop p p [] 0 0 false with ⟨res, s, e⟩
      rw [hres] at hE hloop
      have he : e ≤ p.length := by simpa using hE
      have hslice : slice cs s e = slice p s e := by
        unfold slice
        rw [take_eq_of_take_eq cs p p.length e htake he]
      simp only [merge_quotes, hloop, hres, hslice]
    · rw [takeWhile_of_no_semicolon cs h]
  · decide

end Asm
